import Mathlib

/-!
# Verification of the `dino` persistent key-value store (`src/lib.rs`)

Shallow embedding of the `dino` Rust library: a minimal persistent
key-value store backed by a single JSON text file.

Modelling choices:

* `serde_json::Value` is embedded as the inductive `Value`.  Objects are
  association lists; `serde_json`'s default map is a `BTreeMap`, so the
  insert operation keeps keys sorted and unique (`mapInsert`), mirroring
  the library's canonical ordering.  The map lemmas proved below do not
  depend on sortedness, so no well-formedness side condition is needed.
* The backing file's bytes are embedded logically as `FileContent`:
  either a zero-byte file (`FileContent.empty`) or a file holding exactly
  the `serde_json` serialization of a value (`FileContent.value v`).
  `serde_json::to_string` followed by `serde_json::from_str` is the
  identity on values and never produces the empty string, which is what
  `parseText` encodes; byte-exact formatting is outside the contract.
* Rust panics (`unwrap`, `expect` on `None`/non-object values, write
  failures are out of scope since claims speak of calls that return
  successfully) are embedded as `Option`: `none` is an aborted call.
* `&mut self` methods become functions from the database state (and the
  disk content) to an optional new state; `&self` methods are pure
  functions of the state, so absence of mutation holds by construction.
-/

namespace Dino

/-- Embedding of `serde_json::Value`: JSON values with integers for the
numeric case (the store only ever writes strings and objects). -/
inductive Value where
  | null : Value
  | bool (b : Bool) : Value
  | num (n : Int) : Value
  | str (s : String) : Value
  | arr (xs : List Value) : Value
  | obj (m : List (String × Value)) : Value

/-- `serde_json::Map::insert` on a `BTreeMap` rendered as an association
list: keeps keys in ascending order and overwrites an existing entry.
The key order is `String`'s lexicographic order, written through `.data`
(`String.lt` is by definition `·.data < ·.data`) so that it evaluates. -/
def mapInsert (k : String) (v : Value) : List (String × Value) → List (String × Value)
  | [] => [(k, v)]
  | (k', v') :: rest =>
    if k.data < k'.data then (k, v) :: (k', v') :: rest
    else if k = k' then (k, v) :: rest
    else (k', v') :: mapInsert k v rest

/-- `serde_json::Map::remove`: deletes the entry for `k`, if any. -/
def mapRemove (k : String) : List (String × Value) → List (String × Value)
  | [] => []
  | (k', v') :: rest =>
    if k = k' then rest else (k', v') :: mapRemove k rest

/-- `serde_json::Map::get`: the value stored under `k`, if any. -/
def mapGet (k : String) : List (String × Value) → Option Value
  | [] => none
  | (k', v') :: rest => if k = k' then some v' else mapGet k rest

/-- `serde_json::Map::contains_key`. -/
def mapContains (k : String) (m : List (String × Value)) : Bool :=
  (mapGet k m).isSome

/-- `val == &serde_json::Value::Null`: a `PartialEq` comparison against
the `Null` variant. -/
def Value.isNull : Value → Bool
  | .null => true
  | _ => false

/-- `value[key]` on a `serde_json::Value` behind a shared reference:
`map.get(key)` for objects, and `&Value::Null` for a missing key or a
non-object value (the `Index for str` impl never panics here). -/
def Value.index (j : Value) (key : String) : Value :=
  match j with
  | .obj m => (mapGet key m).getD .null
  | _ => .null

/-- The logical content of the backing file.  `empty` is a zero-byte
file; `value v` is a file holding exactly `serde_json::to_string(v)`
(which is never the empty string). -/
inductive FileContent where
  | empty : FileContent
  | value (v : Value) : FileContent

/-- `serde_json::from_str(if buf == "" { "{}" } else { buf })` on the
logical file content: the empty file bootstraps to the empty object, and
a serialized value parses back to itself (`from_str ∘ to_string = id`). -/
def parseText : FileContent → Value
  | .empty => .obj []
  | .value v => v

/-- The `Tree` struct: `pub children: Option<serde_json::Value>`. -/
structure Tree where
  children : Option Value

/-- `Tree::new`: `children` is `Some` of the empty object
(`serde_json::from_str::<Option<Value>>("{}").unwrap()`). -/
def Tree.new : Tree := ⟨some (.obj [])⟩

/-- `Tree::insert`: unwraps `children`, unwraps `as_object_mut`, and
inserts the string value; `none` embeds the panic on a `Tree` whose
`children` is absent or not an object. -/
def Tree.insert (t : Tree) (key value : String) : Option Tree :=
  match t.children with
  | some (.obj m) => some ⟨some (.obj (mapInsert key (.str value) m))⟩
  | _ => none

/-- The `Database` struct.  `file` is the handle (`Option<File>`, the
handle itself carries no state beyond being open, so it is a unit);
`data` is the raw text read at load time, kept as its logical content;
`json` is the parsed document tree. -/
structure Database where
  path : String
  file : Option Unit
  data : Option FileContent
  json : Option Value

/-- `Database::new`: pure construction, every field but `path` unset. -/
def Database.new (path : String) : Database :=
  { path := path, file := none, data := none, json := none }

/-- `Database::load`: opens the file at `path` (creating it zero-byte if
absent, hence `disk = none` loads as `FileContent.empty`), reads the raw
text, parses it (empty text as `"{}"`), and fills the three fields.
Returns the loaded database together with the file's content on disk. -/
def Database.load (db : Database) (disk : Option FileContent) : Database × FileContent :=
  let fc := match disk with
    | none => FileContent.empty
    | some c => c
  let j := parseText fc
  ({ db with file := some (), data := some fc, json := some j }, fc)

/-- `Database::truncate`: `set_len(0)` plus `seek(Start(0))` on the
unwrapped file handle; panics (`none`) when no handle is present,
otherwise the file on disk becomes zero bytes at position 0. -/
def Database.truncate (db : Database) (_disk : FileContent) : Option FileContent :=
  match db.file with
  | some _ => some FileContent.empty
  | none => none

/-- `Database::insert`: truncates, sets `json[key] := json!(value)` (a
JSON string) through `as_object_mut().unwrap()`, then writes the
serialization of the whole tree to the truncated file.  `none` embeds
the panics when the handle or the tree is absent or not an object. -/
def Database.insert (db : Database) (disk : FileContent) (key value : String) :
    Option (Database × FileContent) :=
  match db.truncate disk with
  | none => none
  | some _ =>
    match db.json with
    | some (.obj m) =>
      let j := Value.obj (mapInsert key (.str value) m)
      some ({ db with json := some j }, FileContent.value j)
    | _ => none

/-- `Database::insert_tree`: truncates, then sets `json[key]` to
`from_str(value.children.unwrap().to_string())` — i.e. to a round-trip
copy of the tree's `children` (panicking when `children` is `None`) —
and writes the serialization of the whole tree to the truncated file. -/
def Database.insert_tree (db : Database) (disk : FileContent) (key : String) (value : Tree) :
    Option (Database × FileContent) :=
  match db.truncate disk with
  | none => none
  | some _ =>
    match db.json with
    | some (.obj m) =>
      match value.children with
      | none => none
      | some c =>
        let j := Value.obj (mapInsert key c m)
        some ({ db with json := some j }, FileContent.value j)
    | _ => none

/-- `Database::remove`: truncates, removes `key` from the tree through
`as_object_mut().unwrap()` (`Map::remove`'s value result is discarded,
so an absent key is a no-op), then writes the serialization of the whole
tree to the truncated file. -/
def Database.remove (db : Database) (disk : FileContent) (key : String) :
    Option (Database × FileContent) :=
  match db.truncate disk with
  | none => none
  | some _ =>
    match db.json with
    | some (.obj m) =>
      let j := Value.obj (mapRemove key m)
      some ({ db with json := some j }, FileContent.value j)
    | _ => none

/-- The error message `find` formats for a missing key. -/
def findErrMsg (key : String) : String :=
  "The key `" ++ key ++
    "` does not exist in the database. You might want to create this or handle the error!"

/-- `Database::find`: indexes the unwrapped tree with `key` and returns
`Err` with the formatted message when the result equals `Null`, `Ok` of
the stored value otherwise.  Takes `&self`: no state is produced. -/
def Database.find (db : Database) (key : String) : Option (Except String Value) :=
  match db.json with
  | none => none
  | some j =>
    let val := j.index key
    if val.isNull then some (.error (findErrMsg key))
    else some (.ok val)

/-- `Database::contains_key`: `contains_key` on the unwrapped object. -/
def Database.contains_key (db : Database) (key : String) : Option Bool :=
  match db.json with
  | some (.obj m) => some (mapContains key m)
  | _ => none

/-- `Database::len`: the number of top-level entries of the unwrapped
object. -/
def Database.len (db : Database) : Option Nat :=
  match db.json with
  | some (.obj m) => some m.length
  | _ => none

/-- One mutating operation of the public API. -/
inductive Op where
  | ins (key value : String) : Op
  | insTree (key : String) (t : Tree) : Op
  | rem (key : String) : Op

/-- The key a mutating operation acts on. -/
def Op.key : Op → String
  | .ins k _ => k
  | .insTree k _ => k
  | .rem k => k

/-- Run one mutating operation on a database/disk pair. -/
def runOp (s : Database × FileContent) : Op → Option (Database × FileContent)
  | .ins k v => s.1.insert s.2 k v
  | .insTree k t => s.1.insert_tree s.2 k t
  | .rem k => s.1.remove s.2 k

/-- Run a sequence of mutating operations, aborting on the first panic. -/
def runOps (s : Database × FileContent) : List Op → Option (Database × FileContent)
  | [] => some s
  | op :: ops =>
    match runOp s op with
    | none => none
    | some s' => runOps s' ops

/-! ## Lemmas about the map operations -/

theorem mapGet_mapInsert_self (k : String) (v : Value) (m : List (String × Value)) :
    mapGet k (mapInsert k v m) = some v := by
  induction m with
  | nil => simp [mapInsert, mapGet]
  | cons hd tl ih =>
    obtain ⟨k', v'⟩ := hd
    simp only [mapInsert]
    split_ifs with h1 h2
    · simp [mapGet]
    · simp [mapGet]
    · simp [mapGet, h2, ih]

theorem mapGet_mapInsert_ne (k k' : String) (v : Value) (m : List (String × Value))
    (hne : k' ≠ k) : mapGet k' (mapInsert k v m) = mapGet k' m := by
  induction m with
  | nil => simp [mapInsert, mapGet, hne]
  | cons hd tl ih =>
    obtain ⟨k1, v1⟩ := hd
    simp only [mapInsert]
    split_ifs with h1 h2
    · simp [mapGet, hne]
    · subst h2
      simp [mapGet, hne]
    · simp only [mapGet]
      split_ifs with h3
      · rfl
      · exact ih

theorem mapGet_mapRemove_ne (k k' : String) (m : List (String × Value))
    (hne : k' ≠ k) : mapGet k' (mapRemove k m) = mapGet k' m := by
  induction m with
  | nil => simp [mapRemove]
  | cons hd tl ih =>
    obtain ⟨k1, v1⟩ := hd
    simp only [mapRemove]
    split_ifs with h1
    · subst h1
      simp [mapGet, hne]
    · simp only [mapGet]
      split_ifs with h3
      · rfl
      · exact ih

theorem mapRemove_absent (k : String) (m : List (String × Value))
    (h : mapGet k m = none) : mapRemove k m = m := by
  induction m with
  | nil => rfl
  | cons hd tl ih =>
    obtain ⟨k1, v1⟩ := hd
    simp only [mapGet] at h
    split_ifs at h with h1
    simp [mapRemove, h1, ih h]

/-! ## Lemmas about successful mutating operations -/

/-- A successful mutating operation requires a loaded database whose tree
is an object, and leaves a state whose tree is an object held verbatim,
serialized, by the file; `path`, `file` and `data` are untouched. -/
theorem runOp_success (s s' : Database × FileContent) (op : Op)
    (h : runOp s op = some s') :
    ∃ m j, s.1.json = some (Value.obj m) ∧ s.1.file = some () ∧
      s'.1.json = some j ∧ s'.2 = FileContent.value j ∧
      s'.1.path = s.1.path ∧ s'.1.file = s.1.file ∧ s'.1.data = s.1.data := by
  obtain ⟨⟨p, f, d, j⟩, disk⟩ := s
  cases op with
  | ins k v =>
    cases f with
    | none => exact absurd h (by simp [runOp, Database.insert, Database.truncate])
    | some u =>
      cases j with
      | none => exact absurd h (by simp [runOp, Database.insert, Database.truncate])
      | some jv =>
        cases jv with
        | null => exact absurd h (by simp [runOp, Database.insert, Database.truncate])
        | bool b => exact absurd h (by simp [runOp, Database.insert, Database.truncate])
        | num n => exact absurd h (by simp [runOp, Database.insert, Database.truncate])
        | str s0 => exact absurd h (by simp [runOp, Database.insert, Database.truncate])
        | arr xs => exact absurd h (by simp [runOp, Database.insert, Database.truncate])
        | obj m =>
          simp only [runOp, Database.insert, Database.truncate] at h
          injection h with h
          subst h
          exact ⟨m, _, rfl, rfl, rfl, rfl, rfl, rfl, rfl⟩
  | insTree k t =>
    cases f with
    | none => exact absurd h (by simp [runOp, Database.insert_tree, Database.truncate])
    | some u =>
      cases j with
      | none => exact absurd h (by simp [runOp, Database.insert_tree, Database.truncate])
      | some jv =>
        cases jv with
        | null => exact absurd h (by simp [runOp, Database.insert_tree, Database.truncate])
        | bool b => exact absurd h (by simp [runOp, Database.insert_tree, Database.truncate])
        | num n => exact absurd h (by simp [runOp, Database.insert_tree, Database.truncate])
        | str s0 => exact absurd h (by simp [runOp, Database.insert_tree, Database.truncate])
        | arr xs => exact absurd h (by simp [runOp, Database.insert_tree, Database.truncate])
        | obj m =>
          cases hc : t.children with
          | none =>
            simp [runOp, Database.insert_tree, Database.truncate, hc] at h
          | some c =>
            simp only [runOp, Database.insert_tree, Database.truncate, hc] at h
            injection h with h
            subst h
            exact ⟨m, _, rfl, rfl, rfl, rfl, rfl, rfl, rfl⟩
  | rem k =>
    cases f with
    | none => exact absurd h (by simp [runOp, Database.remove, Database.truncate])
    | some u =>
      cases j with
      | none => exact absurd h (by simp [runOp, Database.remove, Database.truncate])
      | some jv =>
        cases jv with
        | null => exact absurd h (by simp [runOp, Database.remove, Database.truncate])
        | bool b => exact absurd h (by simp [runOp, Database.remove, Database.truncate])
        | num n => exact absurd h (by simp [runOp, Database.remove, Database.truncate])
        | str s0 => exact absurd h (by simp [runOp, Database.remove, Database.truncate])
        | arr xs => exact absurd h (by simp [runOp, Database.remove, Database.truncate])
        | obj m =>
          simp only [runOp, Database.remove, Database.truncate] at h
          injection h with h
          subst h
          exact ⟨m, _, rfl, rfl, rfl, rfl, rfl, rfl, rfl⟩

/-- Exact characterization of a successful `insert`. -/
theorem insert_characterization (db : Database) (disk : FileContent) (k v : String)
    (r : Database × FileContent) (h : db.insert disk k v = some r) :
    ∃ m, db.file = some () ∧ db.json = some (Value.obj m) ∧
      r = ({ db with json := some (Value.obj (mapInsert k (Value.str v) m)) },
           FileContent.value (Value.obj (mapInsert k (Value.str v) m))) := by
  obtain ⟨p, f, d, j⟩ := db
  cases f with
  | none => exact absurd h (by simp [Database.insert, Database.truncate])
  | some u =>
    cases j with
    | none => exact absurd h (by simp [Database.insert, Database.truncate])
    | some jv =>
      cases jv with
      | null => exact absurd h (by simp [Database.insert, Database.truncate])
      | bool b => exact absurd h (by simp [Database.insert, Database.truncate])
      | num n => exact absurd h (by simp [Database.insert, Database.truncate])
      | str s0 => exact absurd h (by simp [Database.insert, Database.truncate])
      | arr xs => exact absurd h (by simp [Database.insert, Database.truncate])
      | obj m =>
        simp only [Database.insert, Database.truncate] at h
        injection h with h
        exact ⟨m, rfl, rfl, h.symm⟩

/-- Exact characterization of a successful `insert_tree`. -/
theorem insert_tree_characterization (db : Database) (disk : FileContent) (k : String)
    (t : Tree) (r : Database × FileContent) (h : db.insert_tree disk k t = some r) :
    ∃ m c, db.file = some () ∧ db.json = some (Value.obj m) ∧ t.children = some c ∧
      r = ({ db with json := some (Value.obj (mapInsert k c m)) },
           FileContent.value (Value.obj (mapInsert k c m))) := by
  obtain ⟨p, f, d, j⟩ := db
  cases f with
  | none => exact absurd h (by simp [Database.insert_tree, Database.truncate])
  | some u =>
    cases j with
    | none => exact absurd h (by simp [Database.insert_tree, Database.truncate])
    | some jv =>
      cases jv with
      | null => exact absurd h (by simp [Database.insert_tree, Database.truncate])
      | bool b => exact absurd h (by simp [Database.insert_tree, Database.truncate])
      | num n => exact absurd h (by simp [Database.insert_tree, Database.truncate])
      | str s0 => exact absurd h (by simp [Database.insert_tree, Database.truncate])
      | arr xs => exact absurd h (by simp [Database.insert_tree, Database.truncate])
      | obj m =>
        cases hc : t.children with
        | none => simp [Database.insert_tree, Database.truncate, hc] at h
        | some c =>
          simp only [Database.insert_tree, Database.truncate, hc] at h
          injection h with h
          exact ⟨m, c, rfl, rfl, rfl, h.symm⟩

/-- Exact characterization of a successful `remove`. -/
theorem remove_characterization (db : Database) (disk : FileContent) (k : String)
    (r : Database × FileContent) (h : db.remove disk k = some r) :
    ∃ m, db.file = some () ∧ db.json = some (Value.obj m) ∧
      r = ({ db with json := some (Value.obj (mapRemove k m)) },
           FileContent.value (Value.obj (mapRemove k m))) := by
  obtain ⟨p, f, d, j⟩ := db
  cases f with
  | none => exact absurd h (by simp [Database.remove, Database.truncate])
  | some u =>
    cases j with
    | none => exact absurd h (by simp [Database.remove, Database.truncate])
    | some jv =>
      cases jv with
      | null => exact absurd h (by simp [Database.remove, Database.truncate])
      | bool b => exact absurd h (by simp [Database.remove, Database.truncate])
      | num n => exact absurd h (by simp [Database.remove, Database.truncate])
      | str s0 => exact absurd h (by simp [Database.remove, Database.truncate])
      | arr xs => exact absurd h (by simp [Database.remove, Database.truncate])
      | obj m =>
        simp only [Database.remove, Database.truncate] at h
        injection h with h
        exact ⟨m, rfl, rfl, h.symm⟩

/-- `Value.isNull` decides equality with `Value.null`. -/
theorem isNull_eq_true_iff (v : Value) : v.isNull = true ↔ v = Value.null := by
  cases v <;> simp [Value.isNull]

/-- Along any successful run, the in-memory tree is the parse of the
file's content. -/
theorem runOps_json_parse (ops : List Op) :
    ∀ s s' : Database × FileContent, s.1.json = some (parseText s.2) →
      runOps s ops = some s' → s'.1.json = some (parseText s'.2) := by
  induction ops with
  | nil =>
    intro s s' hinv h
    simp only [runOps] at h
    injection h with h
    subst h
    exact hinv
  | cons op ops ih =>
    intro s s' hinv h
    simp only [runOps] at h
    cases hop : runOp s op with
    | none => rw [hop] at h; exact absurd h (by simp)
    | some s1 =>
      rw [hop] at h
      obtain ⟨m, j, _, _, hj, hd, _, _, _⟩ := runOp_success s s1 op hop
      exact ih s1 s' (by rw [hj, hd]; rfl) h

/-! ## Claim theorems -/

/-- C1: for every sequence of `insert`/`insert_tree`/`remove` operations
performed on a loaded `Database`, constructing a fresh `Database` on the
same path and calling `load` yields a document tree equal (hence with
equal top-level key set and associated values) to the in-memory tree at
the end of the original sequence. -/
theorem round_trip (p : String) (disk0 : Option FileContent) (ops : List Op)
    (s' : Database × FileContent)
    (h : runOps ((Database.new p).load disk0) ops = some s') :
    ((Database.new s'.1.path).load (some s'.2)).1.json = s'.1.json := by
  have hinv : ((Database.new p).load disk0).1.json
      = some (parseText ((Database.new p).load disk0).2) := by
    cases disk0 <;> rfl
  have hfin := runOps_json_parse ops _ s' hinv h
  rw [hfin]
  rfl

/-- Witness for C1 on the run `load; insert "name" "dino"`. -/
theorem round_trip_witness :
    runOps ((Database.new "db").load none) [Op.ins "name" "dino"]
      = some ({ path := "db", file := some (), data := some FileContent.empty,
                json := some (Value.obj [("name", Value.str "dino")]) },
              FileContent.value (Value.obj [("name", Value.str "dino")])) ∧
    ((Database.new "db").load
        (some (FileContent.value (Value.obj [("name", Value.str "dino")])))).1.json
      = some (Value.obj [("name", Value.str "dino")]) :=
  ⟨rfl, round_trip "db" none [Op.ins "name" "dino"] _ rfl⟩

/-- C2: after every mutating operation (`insert`, `insert_tree`,
`remove`) returns successfully, the entire contents of the backing file
are the serialization of the in-memory document tree. -/
theorem rewrite_invariant (s s' : Database × FileContent) (op : Op)
    (h : runOp s op = some s') :
    ∃ j, s'.1.json = some j ∧ s'.2 = FileContent.value j := by
  obtain ⟨m, j, _, _, hj, hd, _⟩ := runOp_success s s' op h
  exact ⟨j, hj, hd⟩

/-- Witness for C2 on `insert "k" "v"` after a fresh load. -/
theorem rewrite_invariant_witness :
    runOp ((Database.new "db").load none) (Op.ins "k" "v")
      = some ({ path := "db", file := some (), data := some FileContent.empty,
                json := some (Value.obj [("k", Value.str "v")]) },
              FileContent.value (Value.obj [("k", Value.str "v")])) ∧
    ∃ j, some (Value.obj [("k", Value.str "v")]) = some j ∧
      FileContent.value (Value.obj [("k", Value.str "v")]) = FileContent.value j :=
  ⟨rfl, rewrite_invariant ((Database.new "db").load none) _ (Op.ins "k" "v") rfl⟩

/-- C5: `load` on a path whose file is empty (zero bytes, including a
file freshly created by `load` itself) succeeds with the empty object as
document tree: `len` is `0` and `contains_key` is `false` everywhere. -/
theorem empty_file_bootstrap (p : String) (disk : Option FileContent)
    (h : disk = none ∨ disk = some FileContent.empty) :
    ((Database.new p).load disk).1.len = some 0 ∧
    ∀ k, ((Database.new p).load disk).1.contains_key k = some false := by
  rcases h with h | h <;> subst h <;> exact ⟨rfl, fun k => rfl⟩

/-- Witness for C5 at a missing file and at an existing zero-byte file. -/
theorem empty_file_bootstrap_witness :
    ((Database.new "db").load none).1.len = some 0 ∧
    ((Database.new "db").load none).1.contains_key "k" = some false ∧
    ((Database.new "db").load (some FileContent.empty)).1.len = some 0 :=
  ⟨(empty_file_bootstrap "db" none (Or.inl rfl)).1,
   (empty_file_bootstrap "db" none (Or.inl rfl)).2 "k",
   (empty_file_bootstrap "db" (some FileContent.empty) (Or.inr rfl)).1⟩

/-- C8: `Database::new` is pure construction — it performs no file
access (its embedding neither reads nor produces any disk state) and
leaves `file`, `data` and `json` unset — and every other operation
called before `load` panics (embedded as `none`) instead of returning a
recoverable result. -/
theorem new_unloaded_fatal (p k v : String) (t : Tree) (disk : FileContent) :
    (Database.new p).path = p ∧ (Database.new p).file = none ∧
    (Database.new p).data = none ∧ (Database.new p).json = none ∧
    (Database.new p).insert disk k v = none ∧
    (Database.new p).insert_tree disk k t = none ∧
    (Database.new p).remove disk k = none ∧
    (Database.new p).find k = none ∧
    (Database.new p).contains_key k = none ∧
    (Database.new p).len = none :=
  ⟨rfl, rfl, rfl, rfl, rfl, rfl, rfl, rfl, rfl, rfl⟩

/-- C3: on a loaded `Database` whose tree is the object `m`, `find key`
returns the NotFound error — whose message contains the attempted key —
exactly when `key` is absent from the top-level mapping or stored as
null; otherwise it returns `Ok` of the stored value, and it never
returns `Ok` of a null value.  `find` takes `&self` and its embedding is
a pure function of the state, so it mutates nothing. -/
theorem find_spec (db : Database) (m : List (String × Value)) (key : String)
    (h : db.json = some (Value.obj m)) :
    (db.find key = some (Except.error (findErrMsg key)) ↔
      mapGet key m = none ∨ mapGet key m = some Value.null) ∧
    (∀ v, mapGet key m = some v → v ≠ Value.null →
      db.find key = some (Except.ok v)) ∧
    (∀ v, db.find key = some (Except.ok v) → v ≠ Value.null) ∧
    (∃ a b, findErrMsg key = a ++ key ++ b) := by
  refine ⟨?_, ?_, ?_,
    ⟨"The key `",
     "` does not exist in the database. You might want to create this or handle the error!",
     rfl⟩⟩
  · cases hm : mapGet key m with
    | none => simp [Database.find, h, Value.index, hm, Value.isNull]
    | some v => cases v <;> simp [Database.find, h, Value.index, hm, Value.isNull]
  · intro v hv hne
    have hnull : v.isNull = false := by
      cases v <;> first | exact absurd rfl hne | rfl
    simp [Database.find, h, Value.index, hv, hnull]
  · intro v hv heq
    subst heq
    simp only [Database.find, h, Value.index] at hv
    split_ifs at hv with hif
    · exact absurd hv (by simp)
    · simp only [Option.some.injEq, Except.ok.injEq] at hv
      exact hif (by rw [hv]; rfl)

/-- Witness for C3: a present key is found, an absent one is an error. -/
theorem find_spec_witness :
    (Database.mk "p" (some ()) none
        (some (Value.obj [("a", Value.str "1")]))).find "a"
      = some (Except.ok (Value.str "1")) ∧
    (Database.mk "p" (some ()) none
        (some (Value.obj [("a", Value.str "1")]))).find "b"
      = some (Except.error (findErrMsg "b")) :=
  ⟨(find_spec _ [("a", Value.str "1")] "a" rfl).2.1 (Value.str "1") rfl
      (fun hcon => Value.noConfusion hcon),
   (find_spec _ [("a", Value.str "1")] "b" rfl).1.mpr (Or.inl rfl)⟩

/-- C4: after inserting at key `k` twice — scalar or sub-document each
time — only the second value is retrievable via `find k`: the first is
fully replaced, with no merging, whatever the earlier state was. -/
theorem overwrite (s0 s1 s2 : Database × FileContent) (op1 op2 : Op) (k : String)
    (_hk1 : op1.key = k)
    (_h1 : runOp s0 op1 = some s1) (h2 : runOp s1 op2 = some s2) :
    (∀ v2, op2 = Op.ins k v2 → s2.1.find k = some (Except.ok (Value.str v2))) ∧
    (∀ t m2, op2 = Op.insTree k t → t.children = some (Value.obj m2) →
      s2.1.find k = some (Except.ok (Value.obj m2))) := by
  constructor
  · intro v2 hop
    subst hop
    obtain ⟨m1, _, _, hr⟩ := insert_characterization s1.1 s1.2 k v2 s2 h2
    rw [hr]
    simp [Database.find, Value.index, mapGet_mapInsert_self, Value.isNull]
  · intro t m2 hop hc
    subst hop
    obtain ⟨m1, c, _, _, hc', hr⟩ := insert_tree_characterization s1.1 s1.2 k t s2 h2
    rw [hc] at hc'
    injection hc' with hc'
    subst hc'
    rw [hr]
    simp [Database.find, Value.index, mapGet_mapInsert_self, Value.isNull]

/-- Witness for C4: `insert "k" "a"` then `insert "k" "b"` finds `"b"`. -/
theorem overwrite_witness :
    ((Database.mk "p" (some ()) (some FileContent.empty)
        (some (Value.obj [("k", Value.str "b")]))).find "k"
      = some (Except.ok (Value.str "b"))) :=
  (overwrite ((Database.new "p").load none)
      ({ path := "p", file := some (), data := some FileContent.empty,
         json := some (Value.obj [("k", Value.str "a")]) },
       FileContent.value (Value.obj [("k", Value.str "a")]))
      ({ path := "p", file := some (), data := some FileContent.empty,
         json := some (Value.obj [("k", Value.str "b")]) },
       FileContent.value (Value.obj [("k", Value.str "b")]))
      (Op.ins "k" "a") (Op.ins "k" "b") "k" rfl rfl rfl).1 "b" rfl

/-- C6: removing an absent key from a loaded `Database` succeeds, leaves
the document tree unchanged, and still rewrites the backing file, whose
logical content is unchanged. -/
theorem remove_absent (db : Database) (disk : FileContent)
    (m : List (String × Value)) (k : String)
    (hj : db.json = some (Value.obj m)) (hf : db.file = some ())
    (hd : parseText disk = Value.obj m) (hk : mapGet k m = none) :
    ∃ db' disk', db.remove disk k = some (db', disk') ∧
      db'.json = db.json ∧
      disk' = FileContent.value (Value.obj m) ∧
      parseText disk' = parseText disk := by
  obtain ⟨p, f, d, j⟩ := db
  simp only at hj hf
  subst hj hf
  refine ⟨_, _, rfl, ?_, ?_, ?_⟩
  · simp [mapRemove_absent k m hk]
  · rw [mapRemove_absent k m hk]
  · rw [hd]
    simp [parseText, mapRemove_absent k m hk]

/-- Witness for C6: removing `"b"` from a store holding only `"a"`. -/
theorem remove_absent_witness :
    ∃ db' disk',
      (Database.mk "p" (some ()) none
          (some (Value.obj [("a", Value.str "1")]))).remove
        (FileContent.value (Value.obj [("a", Value.str "1")])) "b"
        = some (db', disk') ∧
      db'.json = (Database.mk "p" (some ()) none
          (some (Value.obj [("a", Value.str "1")]))).json ∧
      disk' = FileContent.value (Value.obj [("a", Value.str "1")]) ∧
      parseText disk' = parseText (FileContent.value (Value.obj [("a", Value.str "1")])) :=
  remove_absent _ _ [("a", Value.str "1")] "b" rfl rfl rfl rfl

/-- C7: `insert_tree key document` stores a snapshot of the document's
`children` mapping under `key` — the stored state is a function of the
`children` value at call time alone, so no later mutation of the
original `Tree` (which in the embedding only ever produces a new value)
can affect it — and calling `insert_tree` with a `Tree` whose `children`
is absent panics (`none`) rather than returning a recoverable result. -/
theorem insert_tree_snapshot (db : Database) (disk : FileContent) (k : String) :
    (db.insert_tree disk k ⟨none⟩ = none) ∧
    (∀ m c t, db.json = some (Value.obj m) → db.file = some () →
      t.children = some c →
      db.insert_tree disk k t
        = some ({ db with json := some (Value.obj (mapInsert k c m)) },
                FileContent.value (Value.obj (mapInsert k c m)))) ∧
    (∀ m c t k2 v2 t2, db.json = some (Value.obj m) → db.file = some () →
      t.children = some c → Tree.insert t k2 v2 = some t2 →
      db.insert_tree disk k t
        = some ({ db with json := some (Value.obj (mapInsert k c m)) },
                FileContent.value (Value.obj (mapInsert k c m)))) := by
  have store : ∀ m c t, db.json = some (Value.obj m) → db.file = some () →
      t.children = some c →
      db.insert_tree disk k t
        = some ({ db with json := some (Value.obj (mapInsert k c m)) },
                FileContent.value (Value.obj (mapInsert k c m))) := by
    intro m c t hj hf hc
    obtain ⟨p, f, d, j⟩ := db
    simp only at hj hf
    subst hj hf
    simp [Database.insert_tree, Database.truncate, hc]
  refine ⟨?_, store, fun m c t k2 v2 t2 hj hf hc _ => store m c t hj hf hc⟩
  obtain ⟨p, f, d, j⟩ := db
  cases f with
  | none => rfl
  | some u =>
    cases j with
    | none => rfl
    | some jv => cases jv <;> rfl

/-- Witness for C7: a never-constructed `Tree` panics; a built one is
stored as the object it held. -/
theorem insert_tree_snapshot_witness :
    (Database.mk "p" (some ()) none (some (Value.obj []))).insert_tree
        FileContent.empty "nested" ⟨none⟩ = none ∧
    (Database.mk "p" (some ()) none (some (Value.obj []))).insert_tree
        FileContent.empty "nested" Tree.new
      = some (Database.mk "p" (some ()) none
                (some (Value.obj [("nested", Value.obj [])])),
              FileContent.value (Value.obj [("nested", Value.obj [])])) :=
  ⟨(insert_tree_snapshot (Database.mk "p" (some ()) none (some (Value.obj [])))
      FileContent.empty "nested").1,
   (insert_tree_snapshot (Database.mk "p" (some ()) none (some (Value.obj [])))
      FileContent.empty "nested").2.1 [] (Value.obj []) Tree.new rfl rfl rfl⟩

/-- C9: a key stored with an explicit null value is present for
`contains_key` (and counted by `len`) but `find` reports it as the
NotFound error: null-valued presence reads as absence for `find` and as
presence for `contains_key`. -/
theorem null_value_semantics (db : Database) (m : List (String × Value)) (k : String)
    (hj : db.json = some (Value.obj m)) (hk : mapGet k m = some Value.null) :
    db.contains_key k = some true ∧
    db.find k = some (Except.error (findErrMsg k)) ∧
    db.len = some m.length ∧ 0 < m.length := by
  refine ⟨?_, ?_, ?_, ?_⟩
  · simp [Database.contains_key, hj, mapContains, hk]
  · simp [Database.find, hj, Value.index, hk, Value.isNull]
  · simp [Database.len, hj]
  · cases m with
    | nil => exact absurd hk (by simp [mapGet])
    | cons hd tl => simp

/-- Witness for C9 on a store holding only `"k": null`. -/
theorem null_value_semantics_witness :
    (Database.mk "p" (some ()) none
        (some (Value.obj [("k", Value.null)]))).contains_key "k" = some true ∧
    (Database.mk "p" (some ()) none
        (some (Value.obj [("k", Value.null)]))).find "k"
      = some (Except.error (findErrMsg "k")) ∧
    (Database.mk "p" (some ()) none
        (some (Value.obj [("k", Value.null)]))).len = some 1 ∧
    0 < [(("k" : String), Value.null)].length :=
  null_value_semantics _ [("k", Value.null)] "k" rfl rfl

/-- C10: a successful mutating operation at key `op.key` leaves the
value stored under every other key `k'` unchanged, and no operation —
mutating or `load` — ever changes the `path` field. -/
theorem frame_preservation (s s' : Database × FileContent) (op : Op) (k' : String)
    (h : runOp s op = some s') (hne : k' ≠ op.key) :
    (∃ m m', s.1.json = some (Value.obj m) ∧ s'.1.json = some (Value.obj m') ∧
      mapGet k' m' = mapGet k' m) ∧
    s'.1.path = s.1.path ∧
    (∀ db disk, (Database.load db disk).1.path = db.path) := by
  refine ⟨?_, ?_, fun db disk => by cases disk <;> rfl⟩
  · cases op with
    | ins k v =>
      simp only [Op.key] at hne
      obtain ⟨m, _, hj, hr⟩ := insert_characterization s.1 s.2 k v s' h
      exact ⟨m, _, hj, by rw [hr], mapGet_mapInsert_ne k k' _ m hne⟩
    | insTree k t =>
      simp only [Op.key] at hne
      obtain ⟨m, c, _, hj, _, hr⟩ := insert_tree_characterization s.1 s.2 k t s' h
      exact ⟨m, _, hj, by rw [hr], mapGet_mapInsert_ne k k' _ m hne⟩
    | rem k =>
      simp only [Op.key] at hne
      obtain ⟨m, _, hj, hr⟩ := remove_characterization s.1 s.2 k s' h
      exact ⟨m, _, hj, by rw [hr], mapGet_mapRemove_ne k k' m hne⟩
  · obtain ⟨_, _, _, _, _, _, hp, _, _⟩ := runOp_success s s' op h
    exact hp

/-- Witness for C10: inserting `"b"` leaves the entry at `"a"` intact. -/
theorem frame_preservation_witness :
    (∃ m m',
      (Database.mk "p" (some ()) none
          (some (Value.obj [("a", Value.str "1")]))).json = some (Value.obj m) ∧
      (Database.mk "p" (some ()) none
          (some (Value.obj [("a", Value.str "1"), ("b", Value.str "2")]))).json
        = some (Value.obj m') ∧
      mapGet "a" m' = mapGet "a" m) ∧
    (Database.mk "p" (some ()) none
        (some (Value.obj [("a", Value.str "1"), ("b", Value.str "2")]))).path
      = (Database.mk "p" (some ()) none
          (some (Value.obj [("a", Value.str "1")]))).path ∧
    (∀ db disk, (Database.load db disk).1.path = db.path) :=
  frame_preservation
    (Database.mk "p" (some ()) none (some (Value.obj [("a", Value.str "1")])),
     FileContent.value (Value.obj [("a", Value.str "1")]))
    (Database.mk "p" (some ()) none
        (some (Value.obj [("a", Value.str "1"), ("b", Value.str "2")])),
     FileContent.value (Value.obj [("a", Value.str "1"), ("b", Value.str "2")]))
    (Op.ins "b" "2") "a" rfl (by simp [Op.key])

end Dino
